import Mathlib

/-!
Shallow embedding of the `csv_invoice_tool` core (row normalizer, aggregator
and store-name inference) together with proofs of its specification
properties.  Each definition mirrors one function of the Python source:
`src/normalizer.py`, `src/aggregator.py`, `src/csv_loader.py`.
-/

namespace CsvInvoice

/-! ## Python string primitives -/

/-- Characters stripped by Python `str.strip()` (the model restricts to the
ASCII whitespace characters; all inputs of interest are ASCII/Japanese text
without exotic Unicode spaces). -/
def isPySpace (c : Char) : Bool :=
  c = ' ' || c = '\t' || c = '\n' || c = '\r' || c = '\x0b' || c = '\x0c'

/-- Strip leading and trailing whitespace from a character list. -/
def pyStripList (l : List Char) : List Char :=
  ((l.dropWhile isPySpace).reverse.dropWhile isPySpace).reverse

/-- Python `str.strip()`. -/
def pyStrip (s : String) : String :=
  ⟨pyStripList s.data⟩

/-- Numeric value of an ASCII digit character. -/
def digitVal (c : Char) : Nat :=
  c.toNat - 48

/-- Digit tail of a Python base-10 integer literal: digits in which a single
underscore may occur between two digits (CPython grammar `digit (_? digit)*`),
accumulating the value. -/
def pyDigitsRest : List Char → Nat → Option Nat
  | [], acc => some acc
  | c :: cs, acc =>
    if c = '_' then
      match cs with
      | [] => none
      | d :: ds => if d.isDigit then pyDigitsRest ds (acc * 10 + digitVal d) else none
    else if c.isDigit then pyDigitsRest cs (acc * 10 + digitVal c) else none

/-- Unsigned part of a Python integer literal: must start with a digit. -/
def pyDigitsStart : List Char → Option Nat
  | [] => none
  | c :: cs => if c.isDigit then pyDigitsRest cs (digitVal c) else none

/-- Python `int(s)` for base 10 on ASCII input: surrounding whitespace is
ignored, then an optional single sign followed by digits with optional
single underscores between digits.  Returns `none` where CPython raises
`ValueError`.  (CPython additionally accepts non-ASCII decimal digits; the
model restricts to ASCII digits, which covers every claim.) -/
def pyInt? (s : String) : Option Int :=
  match pyStripList s.data with
  | '+' :: rest => (pyDigitsStart rest).map Int.ofNat
  | '-' :: rest => (pyDigitsStart rest).map (fun n => -(Int.ofNat n))
  | l => (pyDigitsStart l).map Int.ofNat

/-! ## `normalizer._to_int` -/

/-- Delete every comma from a character list (Python `value.replace(",", "")`). -/
def removeCommas (l : List Char) : List Char :=
  l.filter (fun c => c ≠ ',')

/-- Model of `normalizer._to_int`: strip the value, map the empty string to
`None`, delete all commas, then try `int(...)`. -/
def _to_int (value : String) : Option Int :=
  let v := pyStrip value
  if v = "" then none
  else pyInt? ⟨removeCommas v.data⟩

/-! ## `normalizer._parse_date`

`datetime.strptime` with format `%Y<sep>%m<sep>%d` matches, per CPython's
`_strptime`, the regex `\d\d\d\d` for `%Y`, `1[0-2]|0[1-9]|[1-9]` for `%m`
and `3[01]|[12]\d|0[1-9]|[1-9]` for `%d` (alternatives tried in that order),
requires the whole string to be consumed, and then validates the calendar
date (`MINYEAR = 1`, day bounded by the length of the month, Gregorian leap
years).  Because no separator character is a digit, the regex engine's
backtracking never changes which alternative succeeds, so the deterministic
parsers below are faithful. -/

/-- Parse exactly four ASCII digits (the `%Y` directive). -/
def parse4Digits : List Char → Option (Nat × List Char)
  | a :: b :: c :: d :: rest =>
    if a.isDigit && b.isDigit && c.isDigit && d.isDigit then
      some (((digitVal a * 10 + digitVal b) * 10 + digitVal c) * 10 + digitVal d, rest)
    else none
  | _ => none

/-- Parse the `%m` directive: `1[0-2] | 0[1-9] | [1-9]`. -/
def parseMonth : List Char → Option (Nat × List Char)
  | [] => none
  | '1' :: c :: rest =>
    if '0' ≤ c && c ≤ '2' then some (10 + digitVal c, rest) else some (1, c :: rest)
  | '0' :: c :: rest =>
    if '1' ≤ c && c ≤ '9' then some (digitVal c, rest) else none
  | c :: rest =>
    if '1' ≤ c && c ≤ '9' then some (digitVal c, rest) else none

/-- Parse the `%d` directive: `3[01] | [12]\d | 0[1-9] | [1-9]`. -/
def parseDay : List Char → Option (Nat × List Char)
  | [] => none
  | '3' :: c :: rest =>
    if c = '0' || c = '1' then some (30 + digitVal c, rest) else some (3, c :: rest)
  | '1' :: c :: rest =>
    if c.isDigit then some (10 + digitVal c, rest) else some (1, c :: rest)
  | '2' :: c :: rest =>
    if c.isDigit then some (20 + digitVal c, rest) else some (2, c :: rest)
  | '0' :: c :: rest =>
    if '1' ≤ c && c ≤ '9' then some (digitVal c, rest) else none
  | c :: rest =>
    if '1' ≤ c && c ≤ '9' then some (digitVal c, rest) else none

/-- Gregorian leap-year test, as in `datetime`. -/
def isLeap (y : Nat) : Bool :=
  y % 4 = 0 && (y % 100 ≠ 0 || y % 400 = 0)

/-- Number of days in a month, as validated by the `datetime` constructor. -/
def daysInMonth (y m : Nat) : Nat :=
  if m = 2 then (if isLeap y then 29 else 28)
  else if m = 4 || m = 6 || m = 9 || m = 11 then 30
  else 31

/-- Model of `datetime.strptime(value, "%Y<sep>%m<sep>%d")` followed by the
`datetime` constructor's calendar validation. -/
def parseWithSep (sep : Char) (l : List Char) : Option (Nat × Nat × Nat) :=
  match parse4Digits l with
  | none => none
  | some (y, r1) =>
    match r1 with
    | [] => none
    | c1 :: r2 =>
      if c1 = sep then
        match parseMonth r2 with
        | none => none
        | some (m, r3) =>
          match r3 with
          | [] => none
          | c2 :: r4 =>
            if c2 = sep then
              match parseDay r4 with
              | some (d, []) =>
                if 1 ≤ y && y ≤ 9999 && 1 ≤ m && m ≤ 12 && 1 ≤ d && d ≤ daysInMonth y m then
                  some (y, m, d)
                else none
              | _ => none
            else none
      else none

/-- ASCII digit character for a value below ten. -/
def digitChar (n : Nat) : Char :=
  match n with
  | 0 => '0' | 1 => '1' | 2 => '2' | 3 => '3' | 4 => '4'
  | 5 => '5' | 6 => '6' | 7 => '7' | 8 => '8' | _ => '9'

/-- Zero-padded four-digit rendering (the `%Y` directive of `strftime`; the
model zero-pads years below 1000, the documented reference behavior —
platform `strftime` may drop the padding there, but every parsed year of
interest is four digits anyway). -/
def pad4 (n : Nat) : List Char :=
  [digitChar (n / 1000 % 10), digitChar (n / 100 % 10), digitChar (n / 10 % 10),
   digitChar (n % 10)]

/-- Zero-padded two-digit rendering (`%m` / `%d`). -/
def pad2 (n : Nat) : List Char :=
  [digitChar (n / 10 % 10), digitChar (n % 10)]

/-- Model of `dt.strftime("%Y-%m-%d")`. -/
def formatYMD (y m d : Nat) : String :=
  ⟨pad4 y ++ '-' :: (pad2 m ++ '-' :: pad2 d)⟩

/-- Model of `normalizer._parse_date`: strip, reject the empty string, then
try the three patterns `%Y-%m-%d`, `%Y/%m/%d`, `%Y.%m.%d` in order and
re-render the first successful parse as `YYYY-MM-DD`. -/
def _parse_date (value : String) : Option String :=
  let v := pyStrip value
  if v = "" then none
  else
    match parseWithSep '-' v.data with
    | some (y, m, d) => some (formatYMD y m d)
    | none =>
      match parseWithSep '/' v.data with
      | some (y, m, d) => some (formatYMD y m d)
      | none =>
        match parseWithSep '.' v.data with
        | some (y, m, d) => some (formatYMD y m d)
        | none => none

/-! ## Column reconciliation and the unified field map -/

/-- Model of `normalizer.COLUMN_MAP.get`: the fixed, case-sensitive synonym
table from raw column names to canonical field names. -/
def COLUMN_MAP (k : String) : Option String :=
  if k = "date" || k = "day" || k = "日付" then some "date"
  else if k = "product" || k = "item_name" || k = "商品名" then some "item"
  else if k = "price" || k = "単価" then some "price"
  else if k = "quantity" || k = "数量" then some "quantity"
  else if k = "amount" || k = "金額" then some "amount"
  else none

/-- Python `dict.__setitem__` on an insertion-ordered association list: an
existing key keeps its position and gets the new value, a new key is
appended. -/
def dictSet {α : Type} (m : List (String × α)) (k : String) (v : α) :
    List (String × α) :=
  match m with
  | [] => [(k, v)]
  | (k2, w) :: rest => if k2 = k then (k2, v) :: rest else (k2, w) :: dictSet rest k v

/-- Python `dict.get(k)` on an insertion-ordered association list. -/
def dictGet? {α : Type} (m : List (String × α)) (k : String) : Option α :=
  match m with
  | [] => none
  | (k2, w) :: rest => if k2 = k then some w else dictGet? rest k

/-- Unified field map built by `normalize_row` step 1: for each raw column in
iteration order, reconcile its (stripped) name through `COLUMN_MAP`, drop
unrecognized columns, and store the stripped value under the canonical key
(later columns overwrite earlier ones, Python dict assignment). The raw
record is modeled as its list of key/value pairs in dict iteration order. -/
def buildUnified (raw : List (String × String)) : List (String × String) :=
  raw.foldl
    (fun unified kv =>
      match COLUMN_MAP (pyStrip kv.1) with
      | some key => dictSet unified key (pyStrip kv.2)
      | none => unified)
    []

/-- Canonical field lookup `unified.get(key, "")`. -/
def fieldOf (raw : List (String × String)) (key : String) : String :=
  (dictGet? (buildUnified raw) key).getD ""

/-- The parsed date of a raw record (`_parse_date(unified.get("date", ""))`). -/
def parsedDate (raw : List (String × String)) : Option String :=
  _parse_date (fieldOf raw "date")

/-- The item of a raw record (`unified.get("item", "").strip()`). -/
def itemField (raw : List (String × String)) : String :=
  pyStrip (fieldOf raw "item")

/-- The parsed quantity (`_to_int(unified.get("quantity", ""))`). -/
def qtyParsed (raw : List (String × String)) : Option Int :=
  _to_int (fieldOf raw "quantity")

/-- The parsed raw amount (`_to_int(unified.get("amount", ""))`). -/
def amountParsed (raw : List (String × String)) : Option Int :=
  _to_int (fieldOf raw "amount")

/-- The parsed price (`_to_int(unified.get("price", ""))`). -/
def priceParsed (raw : List (String × String)) : Option Int :=
  _to_int (fieldOf raw "price")

/-! ## `normalizer.normalize_row` -/

/-- Model of `normalizer.NormalizedRow` (a frozen dataclass; Python `int` is
unbounded, hence `Int`). -/
structure NormalizedRow where
  date : String
  store : String
  item : String
  quantity : Int
  amount : Int
deriving DecidableEq, Repr

/-- Model of `normalizer.normalize_row`: validation in the source's fixed
order (date, item, quantity, amount-with-price-fallback), returning either
a normalized row or a rejection reason, never both. -/
def normalize_row (raw : List (String × String)) (store : String) :
    Option NormalizedRow × Option String :=
  match parsedDate raw with
  | none => (none, some "dateが不正/空です")
  | some date =>
    if itemField raw = "" then (none, some "itemが空です")
    else
      match qtyParsed raw with
      | none => (none, some "quantityが不正/空です")
      | some qty =>
        match amountParsed raw with
        | some amount => (some ⟨date, store, itemField raw, qty, amount⟩, none)
        | none =>
          match priceParsed raw with
          | none => (none, some "amountもpriceも不正/空です（計算できません）")
          | some price => (some ⟨date, store, itemField raw, qty, price * qty⟩, none)

/-! ## `aggregator.aggregate` -/

/-- One `defaultdict(int)` update `m[k] += a`: an existing key keeps its
position, a new key is appended with initial value zero plus `a`. -/
def addAmount (m : List (String × Int)) (k : String) (a : Int) :
    List (String × Int) :=
  match m with
  | [] => [(k, a)]
  | (k2, v) :: rest => if k2 = k then (k2, v + a) :: rest else (k2, v) :: addAmount rest k a

/-- Accumulate `amount` keyed by `f` over the rows (the body of the single
loop of `aggregate`, restricted to one of the two independent dicts). -/
def accBy (f : NormalizedRow → String) (rows : List NormalizedRow) :
    List (String × Int) :=
  rows.foldl (fun m r => addAmount m (f r) r.amount) []

/-- Model of `aggregator.AggregationResult`. -/
structure AggregationResult where
  by_store : List (String × Int)
  by_item : List (String × Int)
deriving DecidableEq, Repr

/-- Model of `aggregator.aggregate`: one pass over the rows adds each row's
`amount` into `by_store[r.store]` and `by_item[r.item]`; the two dicts are
updated independently, so the single Python loop equals one fold per dict. -/
def aggregate (rows : List NormalizedRow) : AggregationResult :=
  ⟨accBy (fun r => r.store) rows, accBy (fun r => r.item) rows⟩

/-! ## `csv_loader.infer_store_name` -/

/-- Python `str.split("_")` on a character list (single-character separator:
empty segments are kept, the empty string yields one empty segment). -/
def splitUnderscore : List Char → List (List Char)
  | [] => [[]]
  | c :: cs =>
    if c = '_' then [] :: splitUnderscore cs
    else
      match splitUnderscore cs with
      | [] => [[c]]
      | h :: t => (c :: h) :: t

/-- Python `"_".join(parts)` on character lists. -/
def joinUnderscore : List (List Char) → List Char
  | [] => []
  | [x] => x
  | x :: xs => x ++ '_' :: joinUnderscore xs

/-- Model of `csv_loader.infer_store_name`, applied to the file stem
(`csv_path.stem`): split on underscores; with at least three segments drop
the last two and rejoin, otherwise keep the whole stem. -/
def infer_store_name (stem : String) : String :=
  let parts := splitUnderscore stem.data
  if 3 ≤ parts.length then ⟨joinUnderscore (parts.take (parts.length - 2))⟩
  else stem

/-! ## Derived quantities used by the statements -/

/-- Sum of the values of an accumulation dict. -/
def sumValues (m : List (String × Int)) : Int :=
  (m.map Prod.snd).sum

/-- Total amount contributed to key `k` by the rows whose key under `f`
equals `k`. -/
def keySum (f : NormalizedRow → String) (rows : List NormalizedRow) (k : String) : Int :=
  ((rows.filter (fun r => f r == k)).map (fun r => r.amount)).sum

/-- Check that a string has the exact textual shape `YYYY-MM-DD`: ten
characters, with digits in positions 1-4, 6-7 and 9-10 and hyphens in
positions 5 and 8. -/
def isDateForm (s : String) : Bool :=
  match s.data with
  | [a, b, c, d, s1, e, f, s2, g, h] =>
    a.isDigit && b.isDigit && c.isDigit && d.isDigit && (s1 == '-') &&
      e.isDigit && f.isDigit && (s2 == '-') && g.isDigit && h.isDigit
  | _ => false

example : _to_int "1,500" = some 1500 := by decide
example : _to_int "1,2" = some 12 := by decide
example : _to_int ",100" = some 100 := by decide
example : _to_int " -42 " = some (-42) := by decide
example : _to_int "" = none := by decide
example : _to_int "," = none := by decide
example : _to_int "1 2" = none := by decide
example : _parse_date "2026/01/05" = some "2026-01-05" := by decide
example : _parse_date "2026.1.5" = some "2026-01-05" := by decide
example : _parse_date "2026-02-29" = none := by decide
example : _parse_date "2024-02-29" = some "2024-02-29" := by decide
example : _parse_date "2026-13-01" = none := by decide
example : _parse_date "2026-01-05x" = none := by decide
example :
    normalize_row
      [("日付", "2026/01/05"), ("商品名", "Coffee"), ("数量", "3"), ("金額", "1,500")]
      "store_a" =
    (some ⟨"2026-01-05", "store_a", "Coffee", 3, 1500⟩, none) := by decide
example :
    normalize_row [("date", ""), ("product", "X"), ("quantity", "1"), ("amount", "100")]
      "s" = (none, some "dateが不正/空です") := by decide
example :
    normalize_row [("date", "2026-01-01"), ("product", "Y"), ("quantity", "2"), ("price", "50")]
      "s" = (some ⟨"2026-01-01", "s", "Y", 2, 100⟩, none) := by decide
example : infer_store_name "store_a_2026_01" = "store_a" := by decide
example : infer_store_name "store_2026_01" = "store" := by decide
example : infer_store_name "a_2026" = "a_2026" := by decide

/-! ## Conservation of the aggregated totals (C1) -/

lemma sumValues_addAmount (m : List (String × Int)) (k : String) (a : Int) :
    sumValues (addAmount m k a) = sumValues m + a := by
  induction m with
  | nil => simp [addAmount, sumValues]
  | cons kv rest ih =>
    obtain ⟨k2, v⟩ := kv
    simp only [addAmount]
    by_cases h : k2 = k
    · simp only [if_pos h, sumValues, List.map_cons, List.sum_cons]
      ring
    · simp only [if_neg h, sumValues, List.map_cons, List.sum_cons]
      simp only [sumValues] at ih
      rw [ih]
      ring

lemma sumValues_accBy_fold (f : NormalizedRow → String) (rows : List NormalizedRow) :
    ∀ acc : List (String × Int),
      sumValues (rows.foldl (fun m r => addAmount m (f r) r.amount) acc) =
        sumValues acc + (rows.map (fun r => r.amount)).sum := by
  induction rows with
  | nil => intro acc; simp
  | cons r rest ih =>
    intro acc
    simp only [List.foldl_cons, List.map_cons, List.sum_cons]
    rw [ih, sumValues_addAmount]
    ring

lemma sumValues_accBy (f : NormalizedRow → String) (rows : List NormalizedRow) :
    sumValues (accBy f rows) = (rows.map (fun r => r.amount)).sum := by
  unfold accBy
  rw [sumValues_accBy_fold]
  simp [sumValues]

/-- C1 (conservation law): for every finite list of normalized records the
sum of all `by_store` values and the sum of all `by_item` values both equal
the sum of the `amount` field over the input records, and on the empty list
both mappings are empty (all three sums are 0). -/
theorem aggregate_conservation :
    (∀ rows : List NormalizedRow,
        sumValues (aggregate rows).by_store = (rows.map (fun r => r.amount)).sum ∧
        sumValues (aggregate rows).by_item = (rows.map (fun r => r.amount)).sum) ∧
    (aggregate []).by_store = [] ∧ (aggregate []).by_item = [] := by
  refine ⟨fun rows => ⟨?_, ?_⟩, rfl, rfl⟩
  · exact sumValues_accBy (fun r => r.store) rows
  · exact sumValues_accBy (fun r => r.item) rows

/-! ## Totality of the normalizer (C6) -/

/-- C6 (totality): for every raw field list and store label, `normalize_row`
returns a pair in which exactly one component is present — either an
accepted record with no reason, or no record with a rejection reason.  The
model is a total function, mirroring that the Python code returns normally
on every string-valued row. -/
theorem normalize_row_total (raw : List (String × String)) (store : String) :
    (∃ r, normalize_row raw store = (some r, none)) ∨
    (∃ e, normalize_row raw store = (none, some e)) := by
  unfold normalize_row
  split
  · exact Or.inr ⟨_, rfl⟩
  · split
    · exact Or.inr ⟨_, rfl⟩
    · split
      · exact Or.inr ⟨_, rfl⟩
      · split
        · exact Or.inl ⟨_, rfl⟩
        · split
          · exact Or.inr ⟨_, rfl⟩
          · exact Or.inl ⟨_, rfl⟩

/-! ## Last-one-wins column reconciliation (C7) -/

lemma dictGet?_set_self {α : Type} (m : List (String × α)) (k : String) (v : α) :
    dictGet? (dictSet m k v) k = some v := by
  induction m with
  | nil => simp [dictSet, dictGet?]
  | cons kv rest ih =>
    obtain ⟨k2, w⟩ := kv
    by_cases h : k2 = k
    · subst h
      simp [dictSet, dictGet?]
    · simp [dictSet, dictGet?, h, ih]

lemma dictGet?_set_ne {α : Type} (m : List (String × α)) {k k2 : String} (v : α)
    (h : k2 ≠ k) : dictGet? (dictSet m k v) k2 = dictGet? m k2 := by
  induction m with
  | nil =>
    simp only [dictSet, dictGet?]
    rw [if_neg (fun hh => h (Eq.symm hh))]
  | cons kv rest ih =>
    obtain ⟨k3, w⟩ := kv
    simp only [dictSet]
    by_cases h3 : k3 = k
    · subst h3
      simp only [if_pos rfl, dictGet?]
      rw [if_neg (fun hh => h (Eq.symm hh)), if_neg (fun hh => h (Eq.symm hh))]
    · simp only [if_neg h3, dictGet?]
      by_cases h23 : k3 = k2
      · rw [if_pos h23, if_pos h23]
      · rw [if_neg h23, if_neg h23, ih]

/-- C7 (last-one-wins): the unified field map built by `normalize_row`
assigns to each canonical field exactly the last raw column value (in raw
iteration order) whose reconciled column name maps to that field — later
columns deterministically overwrite earlier ones. -/
theorem buildUnified_last_wins (raw : List (String × String)) (fkey : String) :
    dictGet? (buildUnified raw) fkey =
      (raw.filterMap
        (fun kv =>
          if COLUMN_MAP (pyStrip kv.1) = some fkey then some (pyStrip kv.2) else none)).getLast? := by
  induction raw using List.reverseRecOn with
  | nil => rfl
  | append_singleton xs kv ih =>
    simp only [buildUnified, List.foldl_append, List.foldl_cons, List.foldl_nil] at ih ⊢
    rw [List.filterMap_append]
    rcases hc : COLUMN_MAP (pyStrip kv.1) with _ | key
    · simp [hc, ih]
    · by_cases hk : key = fkey
      · subst hk
        simp [hc, dictGet?_set_self, List.getLast?_concat]
      · have hne : fkey ≠ key := Ne.symm hk
        simp [hc, dictGet?_set_ne _ _ hne, hk, ih]

/-! ## Order-independence of aggregation (C2) -/

lemma dictGet?_addAmount_self (m : List (String × Int)) (k : String) (a : Int) :
    dictGet? (addAmount m k a) k = some ((dictGet? m k).getD 0 + a) := by
  induction m with
  | nil => simp [addAmount, dictGet?]
  | cons kv rest ih =>
    obtain ⟨k2, v⟩ := kv
    simp only [addAmount]
    by_cases h : k2 = k
    · simp [dictGet?, if_pos h]
    · simp only [if_neg h, dictGet?, if_neg h]
      exact ih

lemma dictGet?_addAmount_ne (m : List (String × Int)) {k k2 : String} (a : Int)
    (h : k2 ≠ k) : dictGet? (addAmount m k a) k2 = dictGet? m k2 := by
  induction m with
  | nil =>
    simp only [addAmount, dictGet?]
    rw [if_neg (fun hh => h (Eq.symm hh))]
  | cons kv rest ih =>
    obtain ⟨k3, v⟩ := kv
    simp only [addAmount]
    by_cases h3 : k3 = k
    · simp only [if_pos h3, dictGet?]
      rw [if_neg (fun hh => h ((Eq.symm hh).trans h3)),
        if_neg (fun hh => h ((Eq.symm hh).trans h3))]
    · simp only [if_neg h3, dictGet?]
      by_cases h23 : k3 = k2
      · rw [if_pos h23, if_pos h23]
      · rw [if_neg h23, if_neg h23, ih]

lemma dictGet?_accBy_fold (f : NormalizedRow → String) (rows : List NormalizedRow) :
    ∀ (acc : List (String × Int)) (k : String),
      dictGet? (rows.foldl (fun m r => addAmount m (f r) r.amount) acc) k =
        if rows.countP (fun r => f r == k) = 0 then dictGet? acc k
        else some ((dictGet? acc k).getD 0 + keySum f rows k) := by
  induction rows with
  | nil => intro acc k; simp [keySum]
  | cons r rest ih =>
    intro acc k
    simp only [List.foldl_cons]
    rw [ih]
    by_cases hr : f r = k
    · subst hr
      have hb : (f r == f r) = true := beq_iff_eq.mpr rfl
      have hcount : (r :: rest).countP (fun x => f x == f r) =
          rest.countP (fun x => f x == f r) + 1 := by
        simp [List.countP_cons, hb]
      have hsum : keySum f (r :: rest) (f r) = r.amount + keySum f rest (f r) := by
        simp [keySum, List.filter_cons, hb]
      have hself := dictGet?_addAmount_self acc (f r) r.amount
      by_cases h0 : rest.countP (fun x => f x == f r) = 0
      · rw [if_pos h0, hself, hcount, if_neg (Nat.succ_ne_zero _), hsum]
        have hfil : rest.filter (fun x => f x == f r) = [] :=
          List.filter_eq_nil_iff.mpr (by simpa using List.countP_eq_zero.mp h0)
        have hks : keySum f rest (f r) = 0 := by simp [keySum, hfil]
        rw [hks]
        simp
      · rw [if_neg h0, hself, hcount, if_neg (Nat.succ_ne_zero _), hsum]
        simp only [Option.getD_some]
        rw [add_assoc]
    · have hb : (f r == k) = false := beq_eq_false_iff_ne.mpr hr
      have hcount : (r :: rest).countP (fun x => f x == k) =
          rest.countP (fun x => f x == k) := by
        simp [List.countP_cons, hb]
      have hsum : keySum f (r :: rest) k = keySum f rest k := by
        simp [keySum, List.filter_cons, hb]
      have hne := dictGet?_addAmount_ne acc r.amount (Ne.symm hr)
      rw [hcount, hsum, hne]

lemma dictGet?_accBy (f : NormalizedRow → String) (rows : List NormalizedRow) (k : String) :
    dictGet? (accBy f rows) k =
      if rows.countP (fun r => f r == k) = 0 then none else some (keySum f rows k) := by
  unfold accBy
  rw [dictGet?_accBy_fold]
  simp [dictGet?]

/-- C2 (order-independence): aggregating any permutation of a record list
yields the same `by_store` and `by_item` totals, as key-to-integer mappings
(every key is mapped to the same optional total); accumulation is exact
integer addition, so no input order can change any total. -/
theorem aggregate_perm_invariant (l1 l2 : List NormalizedRow) (hp : l1.Perm l2) :
    (∀ k, dictGet? (aggregate l1).by_store k = dictGet? (aggregate l2).by_store k) ∧
    (∀ k, dictGet? (aggregate l1).by_item k = dictGet? (aggregate l2).by_item k) := by
  constructor <;> intro k <;> simp only [aggregate]
  · have hs : keySum (fun r => r.store) l1 k = keySum (fun r => r.store) l2 k :=
      ((hp.filter _).map _).sum_eq
    rw [dictGet?_accBy, dictGet?_accBy, hp.countP_eq, hs]
  · have hs : keySum (fun r => r.item) l1 k = keySum (fun r => r.item) l2 k :=
      ((hp.filter _).map _).sum_eq
    rw [dictGet?_accBy, dictGet?_accBy, hp.countP_eq, hs]

/-- Witness for C2 at a concrete two-element permutation. -/
theorem aggregate_perm_invariant_witness :
    dictGet?
      (aggregate [⟨"2026-01-01", "A", "x", 1, 100⟩, ⟨"2026-01-02", "B", "y", 1, 50⟩]).by_store
      "A" =
    dictGet?
      (aggregate [⟨"2026-01-02", "B", "y", 1, 50⟩, ⟨"2026-01-01", "A", "x", 1, 100⟩]).by_store
      "A" :=
  (aggregate_perm_invariant _ _ (List.Perm.swap _ _ _)).1 "A"

/-! ## Permissive comma handling in numeric parsing (C10) -/

/-- C10 (comma deletion): `_to_int` deletes every comma anywhere in the
trimmed value before integer parsing, so any string whose trimmed,
comma-free form parses as an integer is accepted — including forms that are
not well-formed thousands grouping, such as `"1,2"` (parsed as 12) and
`",100"` (parsed as 100). -/
theorem to_int_removes_all_commas :
    (∀ (s : String) (n : Int),
        pyInt? ⟨removeCommas (pyStrip s).data⟩ = some n → _to_int s = some n) ∧
    _to_int "1,2" = some 12 ∧ _to_int ",100" = some 100 := by
  refine ⟨fun s n h => ?_, by decide, by decide⟩
  by_cases hv : pyStrip s = ""
  · rw [hv] at h
    have hnone : pyInt? ⟨removeCommas ("" : String).data⟩ = none := by decide
    rw [hnone] at h
    exact absurd h (by simp)
  · simp only [_to_int]
    rw [if_neg hv]
    exact h

/-- Witness for C10: a value with a stray comma is accepted. -/
theorem to_int_removes_all_commas_witness : _to_int ",100" = some 100 :=
  to_int_removes_all_commas.1 ",100" 100 (by decide)

/-! ## Store-label derivation (C9) -/

lemma splitUnderscore_ne_nil (l : List Char) : splitUnderscore l ≠ [] := by
  induction l with
  | nil => simp [splitUnderscore]
  | cons c cs ih =>
    simp only [splitUnderscore]
    by_cases h : c = '_'
    · simp [h]
    · rw [if_neg h]
      rcases hs : splitUnderscore cs with _ | ⟨hd, tl⟩
      · simp
      · simp

lemma splitUnderscore_append (xs ys : List Char) :
    splitUnderscore (xs ++ '_' :: ys) = splitUnderscore xs ++ splitUnderscore ys := by
  induction xs with
  | nil => simp [splitUnderscore]
  | cons c cs ih =>
    simp only [List.cons_append, splitUnderscore, List.append_eq]
    by_cases h : c = '_'
    · rw [if_pos h, if_pos h, ih]
      rfl
    · rw [if_neg h, if_neg h, ih]
      rcases hs : splitUnderscore cs with _ | ⟨hd, tl⟩
      · exact absurd hs (splitUnderscore_ne_nil cs)
      · simp [hs]

lemma splitUnderscore_no_underscore {l : List Char} (h : '_' ∉ l) :
    splitUnderscore l = [l] := by
  induction l with
  | nil => rfl
  | cons c cs ih =>
    by_cases hc : c = '_'
    · subst hc
      exact absurd (List.mem_cons_self _ _) h
    · have hcs : '_' ∉ cs := fun hm => h (List.mem_cons_of_mem _ hm)
      simp [splitUnderscore, if_neg hc, ih hcs]

lemma joinUnderscore_splitUnderscore (l : List Char) :
    joinUnderscore (splitUnderscore l) = l := by
  induction l with
  | nil => rfl
  | cons c cs ih =>
    simp only [splitUnderscore]
    by_cases hc : c = '_'
    · rw [if_pos hc]
      rcases hs : splitUnderscore cs with _ | ⟨hd, tl⟩
      · exact absurd hs (splitUnderscore_ne_nil cs)
      · rw [hs] at ih
        subst hc
        simp only [joinUnderscore, List.nil_append]
        rw [ih]
    · rw [if_neg hc]
      rcases hs : splitUnderscore cs with _ | ⟨hd, tl⟩
      · exact absurd hs (splitUnderscore_ne_nil cs)
      · rw [hs] at ih
        simp only [hs]
        cases tl with
        | nil =>
          simp only [joinUnderscore] at ih ⊢
          rw [ih]
        | cons t ts =>
          simp only [joinUnderscore] at ih ⊢
          rw [← ih]
          simp

lemma length_splitUnderscore (l : List Char) :
    (splitUnderscore l).length = l.count '_' + 1 := by
  induction l with
  | nil => rfl
  | cons c cs ih =>
    simp only [splitUnderscore]
    by_cases hc : c = '_'
    · rw [if_pos hc]
      simp only [List.length_cons, ih]
      have : (c :: cs).count '_' = cs.count '_' + 1 := by
        simp [List.count_cons, hc]
      rw [this]
    · rw [if_neg hc]
      rcases hs : splitUnderscore cs with _ | ⟨hd, tl⟩
      · exact absurd hs (splitUnderscore_ne_nil cs)
      · have hcount : (c :: cs).count '_' = cs.count '_' := by
          simp [List.count_cons, hc]
        simp only [hs, List.length_cons] at ih ⊢
        rw [hcount]
        exact ih

/-- C9 (store-label derivation): when the file stem ends in an
underscore-separated two-segment suffix (such as `_YYYY_MM`, the shape every
discovered input file has), `infer_store_name` returns the stem with that
trailing suffix stripped; when the stem has fewer than three
underscore-delimited segments (fewer than two underscores) the whole stem is
returned. -/
theorem infer_store_name_spec :
    (∀ pre y m : String, '_' ∉ y.data → '_' ∉ m.data →
        infer_store_name (pre ++ "_" ++ y ++ "_" ++ m) = pre) ∧
    (∀ stem : String, stem.data.count '_' < 2 → infer_store_name stem = stem) := by
  constructor
  · intro pre y m hy hm
    have h1 : ("_" : String).data = ['_'] := rfl
    have hdata : (pre ++ "_" ++ y ++ "_" ++ m).data =
        pre.data ++ '_' :: (y.data ++ '_' :: m.data) := by
      simp [String.data_append, h1, List.append_assoc]
    simp only [infer_store_name]
    rw [hdata, splitUnderscore_append, splitUnderscore_append,
      splitUnderscore_no_underscore hy, splitUnderscore_no_underscore hm]
    have hL : 1 ≤ (splitUnderscore pre.data).length :=
      List.length_pos.mpr (splitUnderscore_ne_nil _)
    have hlen : (splitUnderscore pre.data ++ ([y.data] ++ [m.data])).length =
        (splitUnderscore pre.data).length + 2 := by simp
    rw [hlen, if_pos (by omega)]
    have h2 : (splitUnderscore pre.data).length + 2 - 2 =
        (splitUnderscore pre.data).length := by omega
    rw [h2, List.take_left, joinUnderscore_splitUnderscore]
  · intro stem h
    simp only [infer_store_name]
    rw [length_splitUnderscore, if_neg (by omega)]

/-- Witness for C9 at a concrete file stem of each shape. -/
theorem infer_store_name_spec_witness :
    infer_store_name ("store_a" ++ "_" ++ "2026" ++ "_" ++ "01") = "store_a" ∧
    infer_store_name "a_2026" = "a_2026" :=
  ⟨infer_store_name_spec.1 "store_a" "2026" "01" (by decide) (by decide),
   infer_store_name_spec.2 "a_2026" (by decide)⟩

/-! ## Record-validity invariant (C3) -/

lemma digitChar_isDigit (n : Nat) : (digitChar n).isDigit = true := by
  rcases n with _ | _ | _ | _ | _ | _ | _ | _ | _ | n <;> rfl

lemma isDateForm_formatYMD (y m d : Nat) : isDateForm (formatYMD y m d) = true := by
  simp [isDateForm, formatYMD, pad4, pad2, digitChar_isDigit]

lemma isDateForm_of_parse_date {value out : String} (h : _parse_date value = some out) :
    isDateForm out = true := by
  simp only [_parse_date] at h
  split at h
  · exact absurd h (by simp)
  · split at h
    · rw [Option.some.injEq] at h
      subst h
      exact isDateForm_formatYMD _ _ _
    · split at h
      · rw [Option.some.injEq] at h
        subst h
        exact isDateForm_formatYMD _ _ _
      · split at h
        · rw [Option.some.injEq] at h
          subst h
          exact isDateForm_formatYMD _ _ _
        · exact absurd h (by simp)

/-- Counterexample to C3 as stated: the quantity parser accepts a leading
minus sign, so `normalize_row` returns a record whose quantity is the
negative integer -3, contradicting the claimed non-negativity. -/
theorem normalize_row_negative_quantity :
    (normalize_row
        [("date", "2026-01-05"), ("product", "X"), ("quantity", "-3"), ("amount", "100")]
        "s").1 =
      some ⟨"2026-01-05", "s", "X", -3, 100⟩ ∧ (-3 : Int) < 0 :=
  ⟨by decide, by decide⟩

/-- C3 (amended): every record returned by `normalize_row` has a date of the
exact textual shape `YYYY-MM-DD` and a non-empty item; quantity and amount
are integers (by type), but the quantity need not be non-negative since the
integer parser accepts a leading sign. -/
theorem normalize_row_record_valid (raw : List (String × String)) (store : String)
    (r : NormalizedRow) (h : (normalize_row raw store).1 = some r) :
    isDateForm r.date = true ∧ r.item ≠ "" := by
  unfold normalize_row at h
  split at h
  · exact absurd h (by simp)
  · rename_i d hd
    split at h
    · exact absurd h (by simp)
    · rename_i hi
      split at h
      · exact absurd h (by simp)
      · split at h
        · simp only [Option.some.injEq] at h
          subst h
          exact ⟨isDateForm_of_parse_date hd, hi⟩
        · split at h
          · exact absurd h (by simp)
          · simp only [Option.some.injEq] at h
            subst h
            exact ⟨isDateForm_of_parse_date hd, hi⟩

/-- Witness for the amended C3 at the spec's own accepted scenario row. -/
theorem normalize_row_record_valid_witness :
    isDateForm ((⟨"2026-01-05", "store_a", "Coffee", 3, 1500⟩ : NormalizedRow).date) = true ∧
    (⟨"2026-01-05", "store_a", "Coffee", 3, 1500⟩ : NormalizedRow).item ≠ "" :=
  normalize_row_record_valid
    [("日付", "2026/01/05"), ("商品名", "Coffee"), ("数量", "3"), ("金額", "1,500")]
    "store_a" ⟨"2026-01-05", "store_a", "Coffee", 3, 1500⟩ (by decide)

/-! ## Rejection characterization and check order (C4) -/

/-- C4 (rejection characterization and order): `normalize_row` rejects a raw
record exactly when its reconciled, trimmed date is empty or fails all three
formats, or its item is empty, or its quantity does not parse, or both
amount and price fail to parse; the returned reason is the one attached to
the first failing check in the fixed order date, item, quantity, amount;
and a row is rejected (no record produced) precisely in those cases, never
coerced to a default. -/
theorem normalize_row_rejection (raw : List (String × String)) (store : String) :
    ((normalize_row raw store).2 =
      if parsedDate raw = none then some "dateが不正/空です"
      else if itemField raw = "" then some "itemが空です"
      else if qtyParsed raw = none then some "quantityが不正/空です"
      else if amountParsed raw = none ∧ priceParsed raw = none then
        some "amountもpriceも不正/空です（計算できません）"
      else none) ∧
    ((normalize_row raw store).1 = none ↔
      (parsedDate raw = none ∨ itemField raw = "" ∨ qtyParsed raw = none ∨
        (amountParsed raw = none ∧ priceParsed raw = none))) := by
  rcases hd : parsedDate raw with _ | d <;>
    by_cases hi : itemField raw = "" <;>
      rcases hq : qtyParsed raw with _ | q <;>
        rcases ha : amountParsed raw with _ | a <;>
          rcases hp : priceParsed raw with _ | p <;>
            simp [normalize_row, hd, hi, hq, ha, hp]

/-- Witness for C4 at a concrete row failing the quantity check. -/
theorem normalize_row_rejection_witness :
    (normalize_row [("date", "2026-01-05"), ("product", "X"), ("quantity", "x")] "s").2 =
      some "quantityが不正/空です" := by
  rw [(normalize_row_rejection
    [("date", "2026-01-05"), ("product", "X"), ("quantity", "x")] "s").1]
  decide

/-! ## Amount derivation (C5) -/

/-- C5 (amount derivation): for every accepted record, if the raw amount
field parsed then the record's amount is that literal value; if the raw
amount field was absent or unparsable then the price parsed and the
record's amount is exactly price times quantity; and when both amount and
price fail to parse the row is rejected rather than computed. -/
theorem normalize_row_amount_derivation :
    (∀ (raw : List (String × String)) (store : String) (r : NormalizedRow),
        (normalize_row raw store).1 = some r →
          (∀ a : Int, amountParsed raw = some a → r.amount = a) ∧
          (amountParsed raw = none →
            ∃ p : Int, priceParsed raw = some p ∧ r.amount = p * r.quantity)) ∧
    (∀ (raw : List (String × String)) (store : String),
        amountParsed raw = none → priceParsed raw = none →
          (normalize_row raw store).1 = none) := by
  constructor
  · intro raw store r h
    unfold normalize_row at h
    split at h
    · exact absurd h (by simp)
    · split at h
      · exact absurd h (by simp)
      · split at h
        · exact absurd h (by simp)
        · split at h
          · rename_i a ha
            simp only [Option.some.injEq] at h
            subst h
            refine ⟨fun a2 ha2 => ?_, fun hnone => ?_⟩
            · rw [ha] at ha2
              rw [Option.some.injEq] at ha2
              exact ha2
            · rw [ha] at hnone
              exact absurd hnone (by simp)
          · rename_i hnone
            split at h
            · exact absurd h (by simp)
            · rename_i p hp
              simp only [Option.some.injEq] at h
              subst h
              refine ⟨fun a2 ha2 => ?_, fun _ => ⟨p, hp, rfl⟩⟩
              rw [hnone] at ha2
              exact absurd ha2 (by simp)
  · intro raw store ha hp
    rcases hd : parsedDate raw with _ | d <;>
      by_cases hi : itemField raw = "" <;>
        rcases hq : qtyParsed raw with _ | q <;>
          simp [normalize_row, hd, hi, hq, ha, hp]

/-- Witness for C5: a row with neither amount nor price is rejected. -/
theorem normalize_row_amount_derivation_witness :
    (normalize_row [("date", "2026-01-05"), ("product", "X"), ("quantity", "3")] "s").1 =
      none :=
  normalize_row_amount_derivation.2
    [("date", "2026-01-05"), ("product", "X"), ("quantity", "3")] "s"
    (by decide) (by decide)

end CsvInvoice
